import Mathlib

/-!
Verification of the gobin versioned document store.

A shallow embedding of the gobin server (a versioned pastebin with
capability-token authorization) and proofs about its behaviour.

The embedding covers:
* the document data model and the document store operations
  (`gobin/routes.go` handlers; the SQL-backed store is modelled from the
  spec since `database.go` is not part of the sources at hand, with the
  `documents` table schema `PRIMARY KEY (id, version)` as ground truth);
* the capability-token authorization gates of the mutating handlers
  `PatchDocument`, `DeleteDocument` and `PostDocumentShare`;
* the request-parsing helpers (`parseDocumentVersion` in both handler
  variants) including Go's `strconv.ParseInt` on base-10 int64 input;
* the rate-limiter installation predicate of `Routes`;
* `FormatDocumentVersion` together with the civil-calendar decomposition
  of a Unix timestamp (components taken at a fixed UTC offset).
-/

namespace Gobin

/-! ## Permissions, claims and tokens -/

/-- Permissions are short strings in Go (`type Permission string`). -/
abbrev Permission := String

/-- The `PermissionWrite` constant of the token layer. -/
def PermissionWrite : Permission := "write"

/-- The `PermissionDelete` constant of the token layer. -/
def PermissionDelete : Permission := "delete"

/-- The `PermissionShare` constant of the token layer. -/
def PermissionShare : Permission := "share"

/-- Modelled from the spec: the permission enumeration is closed
(`{write, delete, share}`); `Permission.IsValid` (defined in the token
layer, which is not among the sources) accepts exactly those. -/
def Permission.IsValid (p : Permission) : Bool :=
  p == PermissionWrite || p == PermissionDelete || p == PermissionShare

/-- Modelled from the spec: token claims are a self-contained assertion
`{subject = document ID, permissions, issued-at}` (token codec source is
not among the sources; the fields are the ones the handlers consume via
`GetClaims`). -/
structure Claims where
  subject : String
  permissions : List Permission
  issuedAt : Int
deriving Repr, DecidableEq

/-- Modelled from the spec: a capability token binds a document ID to a
permission set; `issue(document_id, permissions) -> token`.  The
signature is elided (signing is stateless and always succeeds in the
model). -/
structure Token where
  subject : String
  permissions : List Permission
deriving Repr, DecidableEq

/-- Modelled from the spec: `NewToken` (token codec, not among the
sources) issues a token for `documentID` carrying exactly the given
permission list. -/
def NewToken (documentID : String) (permissions : List Permission) : Token :=
  ⟨documentID, permissions⟩

/-! ## Documents and the store

The store itself (`database.go`) is not among the sources; it is modelled
from the spec (§4.2) and from the `documents` table schema, whose
composite primary key `(id, version)` makes a same-key insert fail with a
conflict. Rows are kept in insertion order. -/

/-- A row of the `documents` table: `id VARCHAR, version TIMESTAMP,
content TEXT, language VARCHAR, PRIMARY KEY (id, version)`. -/
structure Document where
  id : String
  version : Int
  content : String
  language : String
deriving Repr, DecidableEq

/-- The store state: the rows of the `documents` table in insertion
order. -/
abbrev Store := List Document

/-- Errors surfaced by the store, mapped by the handlers to responses:
`notFound` is `sql.ErrNoRows`; `conflict` is a composite-key violation
(the spec's `StorageError` for a same-second duplicate write). -/
inductive StoreErr
  | notFound
  | conflict
deriving Repr, DecidableEq

namespace DB

/-- The rows belonging to one document ID, in insertion order. -/
def rowsFor (store : Store) (id : String) : List Document :=
  store.filter (fun d => d.id == id)

/-- Whether a row with the given composite key `(id, version)` exists. -/
def hasKey (store : Store) (id : String) (version : Int) : Bool :=
  store.any (fun d => d.id == id && d.version == version)

/-- The latest row of a list: maximal version, ties broken towards the
later insertion (the spec's "last insert simply becomes the new latest by
timestamp/insertion-order tie-break"). -/
def latestRow : List Document → Option Document
  | [] => none
  | d :: ds =>
    match latestRow ds with
    | none => some d
    | some m => if m.version ≥ d.version then some m else some d

/-- Modelled from the spec: `get_latest(id)` returns the row with the
maximum version for `id`, `NotFound` (here `none`) if no rows exist. -/
def GetDocument (store : Store) (id : String) : Option Document :=
  latestRow (rowsFor store id)

/-- Modelled from the spec: `get_version(id, version)` is an exact-match
lookup on the composite key. -/
def GetDocumentVersion (store : Store) (id : String) (version : Int) :
    Option Document :=
  store.find? (fun d => d.id == id && d.version == version)

/-- Modelled from the spec: `count_versions(id)`. -/
def GetVersionCount (store : Store) (id : String) : Nat :=
  (rowsFor store id).length

/-- Modelled from the spec: `create(content, language)` stamps the
version-clock value and inserts a new row under a fresh ID; the insert is
a single atomic row insertion and the composite primary key rejects a
duplicate `(id, version)` as a conflict.  ID generation is a parameter
(the caller guarantees freshness). -/
def CreateDocument (store : Store) (id : String) (now : Int)
    (content language : String) : Except StoreErr (Store × Document) :=
  if hasKey store id now then .error .conflict
  else
    let d : Document := ⟨id, now, content, language⟩
    .ok (store ++ [d], d)

/-- Modelled from the spec: `update(id, content, language)` appends a new
version row under the existing ID; fails `NotFound` if `id` has zero
existing versions, and the composite key rejects a duplicate
`(id, version)`. -/
def UpdateDocument (store : Store) (id : String) (now : Int)
    (content language : String) : Except StoreErr (Store × Document) :=
  if rowsFor store id = [] then .error .notFound
  else if hasKey store id now then .error .conflict
  else
    let d : Document := ⟨id, now, content, language⟩
    .ok (store ++ [d], d)

/-- Modelled from the spec: `delete_all(id)` removes every version row
for `id`; `NotFound` if none existed. -/
def DeleteDocument (store : Store) (id : String) :
    Except StoreErr Store :=
  if rowsFor store id = [] then .error .notFound
  else .ok (store.filter (fun d => !(d.id == id)))

/-- Modelled from the spec: `delete_version(id, version)` removes exactly
the row with that composite key; `NotFound` if the pair is absent; does
not cascade. -/
def DeleteDocumentByVersion (store : Store) (id : String) (version : Int) :
    Except StoreErr Store :=
  if hasKey store id version then
    .ok (store.filter (fun d => !(d.id == id && d.version == version)))
  else .error .notFound

end DB

/-- Modelled from the spec: the Version Clock, `next_version()`, returns
the current time as a Unix timestamp (second resolution). -/
def nextVersion (nowUnix : Int) : Int := nowUnix

/-- The per-version uniqueness invariant enforced by the composite
primary key: no two rows share the key `(id, version)`. -/
def keysNodup (store : Store) : Prop :=
  store.Pairwise (fun a b => ¬(a.id = b.id ∧ a.version = b.version))

/-! ## Go's `strconv.ParseInt(s, 10, 64)` -/

/-- Go's `strconv.ParseInt(s, 10, 64)`: an optional single `+`/`-` sign
followed by at least one decimal digit, rejecting values outside the
int64 range (`none` models a non-nil error). -/
def goParseInt64 (s : String) : Option Int :=
  match s.data with
  | [] => none
  | c :: rest =>
    let (neg, digits) :=
      if c = '-' then (true, rest)
      else if c = '+' then (false, rest)
      else (false, c :: rest)
    if digits = [] then none
    else if digits.all (fun d => d.isDigit) then
      let n : Nat := digits.foldl (fun acc d => acc * 10 + (d.toNat - 48)) 0
      let v : Int := if neg then -(n : Int) else (n : Int)
      if -(2 ^ 63) ≤ v ∧ v ≤ 2 ^ 63 - 1 then some v else none
    else none

/-! ## Request parsing (`parseDocumentVersion`)

Two variants exist in the sources.  The `gobin/routes.go` one requires
both path parameters and answers `documentNotFound` (HTTP 404) on a
missing parameter or a malformed integer.  The other handler variant
treats an absent version segment as the sentinel `0` ("use latest") and
answers `documentNotFound` on a malformed integer, returning `-1`. -/

/-- Outcome of `parseDocumentVersion` from `gobin/routes.go`: either the
pair `(documentID, version)` or the already-written 404 response. -/
inductive ParseVersionResult
  | notFound
  | ok (documentID : String) (version : Int)
deriving Repr, DecidableEq

/-- Helper `parseDocumentVersion` (`gobin/routes.go`): empty parameters or an
unparsable version answer `documentNotFound`. -/
def parseDocumentVersionRoutes (documentID versionParam : String) :
    ParseVersionResult :=
  if documentID == "" || versionParam == "" then .notFound
  else
    match goParseInt64 versionParam with
    | none => .notFound
    | some v => .ok documentID v

/-- The HTTP status written by the `parseDocumentVersion` error path of
`gobin/routes.go` (`s.documentNotFound` writes 404), or `0` when parsing
succeeded and no response has been written. -/
def ParseVersionResult.status : ParseVersionResult → Nat
  | .notFound => 404
  | .ok _ _ => 0

/-- Helper `parseDocumentVersion` (second handler variant): an absent version
segment yields the sentinel `0`; an unparsable version writes
`documentNotFound` and yields `-1`. -/
def parseDocumentVersionCmd (versionParam : String) : Int :=
  if versionParam == "" then 0
  else
    match goParseInt64 versionParam with
    | none => -1
    | some v => v

/-! ## Mutating handlers of `gobin/routes.go` -/

/-- Outcome of the `PatchDocument` handler. -/
inductive PatchResult
  | notFound
  | emptyBody
  | tooLarge
  | storageError
  | updated (d : Document) (newStore : Store)
deriving Repr, DecidableEq

/-- HTTP status of a `PatchDocument` outcome. -/
def PatchResult.status : PatchResult → Nat
  | .notFound => 404
  | .emptyBody => 400
  | .tooLarge => 400
  | .storageError => 500
  | .updated _ _ => 200

/-- Handler `PatchDocument` (`gobin/routes.go`): authorization gate (claims must
target this document and carry `write`, otherwise `documentNotFound`),
then `readBody` (an empty body is a 400), then the maximum-size check,
then `UpdateDocument` with `sql.ErrNoRows` mapped to 404.  `claims` is
the product of the JWT middleware (`GetClaims`); `content` the request
body; `maxDocumentSize` the configured limit. -/
def PatchDocument (claims : Claims) (documentID language content : String)
    (maxDocumentSize : Int) (store : Store) (now : Int) : PatchResult :=
  if claims.subject != documentID ||
      !(claims.permissions.contains PermissionWrite) then .notFound
  else if content == "" then .emptyBody
  else if maxDocumentSize > 0 && (content.length : Int) > maxDocumentSize then
    .tooLarge
  else
    match DB.UpdateDocument store documentID now content language with
    | .error .notFound => .notFound
    | .error .conflict => .storageError
    | .ok (st, d) => .updated d st

/-- The post-authorization tail of `PatchDocument` (everything after the
claims gate); it does not mention the claims. -/
def patchDocumentBody (documentID language content : String)
    (maxDocumentSize : Int) (store : Store) (now : Int) : PatchResult :=
  if content == "" then .emptyBody
  else if maxDocumentSize > 0 && (content.length : Int) > maxDocumentSize then
    .tooLarge
  else
    match DB.UpdateDocument store documentID now content language with
    | .error .notFound => .notFound
    | .error .conflict => .storageError
    | .ok (st, d) => .updated d st

/-- Outcome of the `DeleteDocument` handler of `gobin/routes.go`. -/
inductive DeleteAllResult
  | notFound
  | noContent (newStore : Store)
deriving Repr, DecidableEq

/-- HTTP status of a `DeleteDocument` (`gobin/routes.go`) outcome. -/
def DeleteAllResult.status : DeleteAllResult → Nat
  | .notFound => 404
  | .noContent _ => 204

/-- Handler `DeleteDocument` (`gobin/routes.go`): authorization gate (claims must
target this document and carry `delete`, otherwise `documentNotFound`),
then `db.DeleteDocument` with `sql.ErrNoRows` mapped to 404, then 204. -/
def DeleteDocumentRoutes (claims : Claims) (documentID : String)
    (store : Store) : DeleteAllResult :=
  if claims.subject != documentID ||
      !(claims.permissions.contains PermissionDelete) then .notFound
  else
    match DB.DeleteDocument store documentID with
    | .error _ => .notFound
    | .ok st => .noContent st

/-- The post-authorization tail of `DeleteDocument` (`gobin/routes.go`). -/
def deleteDocumentBody (documentID : String) (store : Store) :
    DeleteAllResult :=
  match DB.DeleteDocument store documentID with
  | .error _ => .notFound
  | .ok st => .noContent st

/-- Outcome of the `PostDocumentShare` handler. -/
inductive ShareResult
  | badRequestMalformed
  | badRequestNoPermissions
  | badRequestUnknownPermission (p : Permission)
  | notFound
  | forbidden (p : Permission)
  | ok (t : Token)
deriving Repr, DecidableEq

/-- HTTP status of a `PostDocumentShare` outcome. -/
def ShareResult.status : ShareResult → Nat
  | .badRequestMalformed => 400
  | .badRequestNoPermissions => 400
  | .badRequestUnknownPermission _ => 400
  | .notFound => 404
  | .forbidden _ => 403
  | .ok _ => 200

/-- Handler `PostDocumentShare` (`gobin/routes.go`): decode the JSON body
(`body = none` models a decode failure, `400`); reject an empty
permission list (`400`); reject the first invalid permission (`400`);
authorization gate (claims must target this document and carry `share`,
otherwise `documentNotFound`); reject the first requested permission the
claims do not hold (`403`, `ErrPermissionDenied`); issue a token carrying
exactly the requested permissions. -/
def PostDocumentShare (claims : Claims) (documentID : String)
    (body : Option (List Permission)) : ShareResult :=
  match body with
  | none => .badRequestMalformed
  | some perms =>
    if perms.length == 0 then .badRequestNoPermissions
    else
      match perms.find? (fun p => ! p.IsValid) with
      | some p => .badRequestUnknownPermission p
      | none =>
        if claims.subject != documentID ||
            !(claims.permissions.contains PermissionShare) then .notFound
        else
          match perms.find? (fun p => !(claims.permissions.contains p)) with
          | some p => .forbidden p
          | none => .ok (NewToken documentID perms)

/-- The post-authorization tail of `PostDocumentShare` (the delegation
check and token issuance). -/
def shareDocumentBody (claims : Claims) (documentID : String)
    (perms : List Permission) : ShareResult :=
  match perms.find? (fun p => !(claims.permissions.contains p)) with
  | some p => .forbidden p
  | none => .ok (NewToken documentID perms)

/-! ## Read/delete handlers of the second variant (version-0 sentinel) -/

/-- Outcome of the `getDocument` helper of the second handler variant. -/
inductive GetResult
  | emptyDoc
  | parseAbort
  | notFound
  | found (d : Document)
deriving Repr, DecidableEq

/-- Helper `getDocument` (second handler variant): an empty document ID yields
an empty document; a `-1` parse aborts (404 already written by the
parser); version `0` fetches the latest row; otherwise an exact-version
lookup, `sql.ErrNoRows` mapped to 404. -/
def getDocumentCmd (documentID versionParam : String) (store : Store) :
    GetResult :=
  if documentID == "" then .emptyDoc
  else
    let version := parseDocumentVersionCmd versionParam
    if version == -1 then .parseAbort
    else if version == 0 then
      match DB.GetDocument store documentID with
      | none => .notFound
      | some d => .found d
    else
      match DB.GetDocumentVersion store documentID version with
      | none => .notFound
      | some d => .found d

/-- Outcome of the `DeleteDocument` handler of the second variant. -/
inductive DeleteResult
  | parseAbort
  | notFound
  | deleted (remaining : Nat) (newStore : Store)
deriving Repr, DecidableEq

/-- Handler `DeleteDocument` (second handler variant): parse the version (an
unparsable one aborts with the 404 the parser wrote); authorization gate
(claims must target this document and carry `delete`, otherwise
`documentNotFound`); version `0` deletes every version row, any other
value deletes exactly that version, `sql.ErrNoRows` mapped to 404; the
response reports the remaining version count. -/
def DeleteDocumentCmd (claims : Claims) (documentID versionParam : String)
    (store : Store) : DeleteResult :=
  let version := parseDocumentVersionCmd versionParam
  if version == -1 then .parseAbort
  else if claims.subject != documentID ||
      !(claims.permissions.contains PermissionDelete) then .notFound
  else
    let res :=
      if version == 0 then DB.DeleteDocument store documentID
      else DB.DeleteDocumentByVersion store documentID version
    match res with
    | .error _ => .notFound
    | .ok st => .deleted (DB.GetVersionCount st documentID) st

/-! ## Civil time and `FormatDocumentVersion`

`FormatDocumentVersion` works on the calendar components of `now` and of
`time.Unix(versionRaw, 0)`.  The components of a Unix timestamp are
computed here for a fixed (UTC) offset with the standard civil-calendar
conversion. -/

/-- Calendar components of an instant (what Go's `Year`, `Month`, `Day`,
`Hour`, `Minute`, `Second` accessors return). -/
structure DateTime where
  year : Int
  month : Int
  day : Int
  hour : Int
  minute : Int
  second : Int
deriving Repr, DecidableEq

/-- Calendar components of a Unix timestamp (`time.Unix(z, 0)` at a fixed
UTC offset), via the standard days-to-civil conversion. -/
def civilFromUnix (z : Int) : DateTime :=
  let days := Int.ediv z 86400
  let secs := Int.emod z 86400
  let zz := days + 719468
  let era := Int.ediv zz 146097
  let doe := zz - era * 146097
  let yoe :=
    Int.ediv (doe - Int.ediv doe 1460 + Int.ediv doe 36524 -
      Int.ediv doe 146096) 365
  let y := yoe + era * 400
  let doy := doe - (365 * yoe + Int.ediv yoe 4 - Int.ediv yoe 100)
  let mp := Int.ediv (5 * doy + 2) 153
  let d := doy - Int.ediv (153 * mp + 2) 5 + 1
  let m := mp + (if mp < 10 then 3 else -9)
  ⟨y + (if m ≤ 2 then 1 else 0), m, d,
    Int.ediv secs 3600, Int.ediv (Int.emod secs 3600) 60, Int.emod secs 60⟩

/-- Two-digit zero padding (Go's `02`, `01`, `15`, `04`, `05` format
verbs). -/
def pad2 (n : Int) : String :=
  if n < 10 then "0" ++ toString n else toString n

/-- The `02/01/2006 15:04:05` rendering of a `DateTime`. -/
def formatTimeStr (t : DateTime) : String :=
  pad2 t.day ++ "/" ++ pad2 t.month ++ "/" ++ toString t.year ++ " " ++
    pad2 t.hour ++ ":" ++ pad2 t.minute ++ ":" ++ pad2 t.second

/-- Function `FormatDocumentVersion`: the version label cascades over the calendar
components (year, month, day, hour, minute, falling through to seconds),
returning the count difference of the first component where the version
is strictly behind `now`; also returns the absolute time string. -/
def FormatDocumentVersion (now : DateTime) (versionRaw : Int) :
    String × String :=
  let version := civilFromUnix versionRaw
  let timeStr := formatTimeStr version
  if version.year < now.year then
    (toString (now.year - version.year) ++ " years ago", timeStr)
  else if version.month < now.month then
    (toString (now.month - version.month) ++ " months ago", timeStr)
  else if version.day < now.day then
    (toString (now.day - version.day) ++ " days ago", timeStr)
  else if version.hour < now.hour then
    (toString (now.hour - version.hour) ++ " hours ago", timeStr)
  else if version.minute < now.minute then
    (toString (now.minute - version.minute) ++ " minutes ago", timeStr)
  else
    (toString (now.second - version.second) ++ " seconds ago", timeStr)

/-- One comparison step of the label cascade: the component of `now`, the
component of the version, and the label suffix. -/
structure ComponentStep where
  nowC : Int
  verC : Int
  suffix : String

/-- The calendar components in the order the claim names them: year,
month, day, hour, minute. -/
def componentSteps (now ver : DateTime) : List ComponentStep :=
  [⟨now.year, ver.year, " years ago"⟩,
   ⟨now.month, ver.month, " months ago"⟩,
   ⟨now.day, ver.day, " days ago"⟩,
   ⟨now.hour, ver.hour, " hours ago"⟩,
   ⟨now.minute, ver.minute, " minutes ago"⟩]

/-- The claim's description of the label, stated independently of the
source: find the first component, in the order year, month, day, hour,
minute, where the version's component is strictly less than `now`'s, and
display the difference of that single component; fall through to the
second difference. -/
def specLabel (now ver : DateTime) : String :=
  match (componentSteps now ver).find? (fun s => s.verC < s.nowC) with
  | some s => toString (s.nowC - s.verC) ++ s.suffix
  | none => toString (now.second - ver.second) ++ " seconds ago"

/-! ## Rate limiter installation (`Routes` / `NewServer`) -/

/-- The rate-limit section of the configuration (`RateLimitConfig`):
`Requests int`, `Duration time.Duration` (nanoseconds). -/
structure RateLimitConfig where
  requests : Int
  duration : Int
deriving Repr, DecidableEq

/-- The part of the server configuration `Routes` consults for rate
limiting; `none` models a nil `RateLimit` pointer. -/
structure ServerConfig where
  rateLimit : Option RateLimitConfig
deriving Repr, DecidableEq

/-- HTTP request methods occurring in the route table. -/
inductive Method
  | get
  | head
  | post
  | patch
  | delete
deriving Repr, DecidableEq

/-- Whether `Routes` installs the rate limiter at all:
`s.cfg.RateLimit != nil && Requests > 0 && Duration > 0`. -/
def rateLimiterInstalled (cfg : ServerConfig) : Bool :=
  match cfg.rateLimit with
  | none => false
  | some rl => rl.requests > 0 && rl.duration > 0

/-- Whether a request passes through the rate limiter: the limiter is
installed and `middleware.Maybe`'s predicate holds (`r.Method` is POST,
PATCH or DELETE). -/
def rateLimitApplies (cfg : ServerConfig) (m : Method) : Bool :=
  rateLimiterInstalled cfg &&
    (m == .post || m == .patch || m == .delete)

/-- Whether a request is answered with the RateLimited error
(`ErrRateLimit`, HTTP 429): only the limit handler of an applied rate
limiter produces it, and only when the bucket is over budget. -/
def requestRateLimited (cfg : ServerConfig) (m : Method)
    (overBudget : Bool) : Bool :=
  rateLimitApplies cfg m && overBudget

/-! ## Theorems -/

/-- C6: the rate limiter gates only the mutating endpoints (POST, PATCH,
DELETE requests), never a read-only (GET/HEAD) request, and no request is
ever rejected as RateLimited when the configured request budget or window
duration is zero/unset (a nil `RateLimit` config included). -/
theorem rate_limiter_only_mutations_and_disabled_when_unset
    (cfg : ServerConfig) (m : Method) (overBudget : Bool) :
    (m = .get ∨ m = .head → requestRateLimited cfg m overBudget = false) ∧
    (rateLimitApplies cfg m = true → m = .post ∨ m = .patch ∨ m = .delete) ∧
    (∀ rl, cfg.rateLimit = some rl → rl.requests = 0 ∨ rl.duration = 0 →
      requestRateLimited cfg m overBudget = false) ∧
    (cfg.rateLimit = none → requestRateLimited cfg m overBudget = false) := by
  refine ⟨?_, ?_, ?_, ?_⟩
  · rintro (rfl | rfl) <;>
      simp [requestRateLimited, rateLimitApplies]
  · intro h
    simp only [rateLimitApplies, Bool.and_eq_true, Bool.or_eq_true,
      beq_iff_eq] at h
    tauto
  · rintro rl hrl (h | h) <;>
      simp [requestRateLimited, rateLimitApplies, rateLimiterInstalled,
        hrl, h]
  · intro h
    simp [requestRateLimited, rateLimitApplies, rateLimiterInstalled, h]

/-- C6 witness: a GET request is never limited; with a zero budget even a
POST over budget is not limited; with a nil config nothing is limited. -/
theorem rate_limiter_disabled_witness :
    requestRateLimited ⟨some ⟨2, 60⟩⟩ .get true = false ∧
    requestRateLimited ⟨some ⟨0, 60⟩⟩ .post true = false ∧
    requestRateLimited ⟨none⟩ .delete true = false :=
  ⟨(rate_limiter_only_mutations_and_disabled_when_unset
      ⟨some ⟨2, 60⟩⟩ .get true).1 (Or.inl rfl),
   (rate_limiter_only_mutations_and_disabled_when_unset
      ⟨some ⟨0, 60⟩⟩ .post true).2.2.1 ⟨0, 60⟩ rfl (Or.inl rfl),
   (rate_limiter_only_mutations_and_disabled_when_unset
      ⟨none⟩ .delete true).2.2.2 rfl⟩

/-- C8 counterexample: a present but malformed version path parameter is
answered with the NotFound error (status 404, `documentNotFound`), not
with the Invalid/BadRequest error class (status 400) the claim names. -/
theorem malformed_version_counterexample :
    (parseDocumentVersionRoutes "abc123" "1x").status = 404 ∧
    (parseDocumentVersionRoutes "abc123" "1x").status ≠ 400 ∧
    parseDocumentVersionCmd "1x" = -1 := by
  refine ⟨?_, ?_, ?_⟩ <;> decide

/-- C8 amended: a request whose version path parameter is present but not
a well-formed int64 is answered with the NotFound error kind, for every
document ID and every such version string — in both `parseDocumentVersion`
variants (the second signals the already-written 404 by returning `-1`). -/
theorem malformed_version_not_found (id vs : String)
    (hid : id ≠ "") (hvs : vs ≠ "") (h : goParseInt64 vs = none) :
    parseDocumentVersionRoutes id vs = .notFound ∧
    (parseDocumentVersionRoutes id vs).status = 404 ∧
    parseDocumentVersionCmd vs = -1 := by
  refine ⟨?_, ?_, ?_⟩ <;>
    simp [parseDocumentVersionRoutes, parseDocumentVersionCmd,
      ParseVersionResult.status, hid, hvs, h]

/-- C8 amended witness: the concrete malformed version string `zz`. -/
theorem malformed_version_not_found_witness :
    parseDocumentVersionRoutes "doc1" "zz" = .notFound ∧
    (parseDocumentVersionRoutes "doc1" "zz").status = 404 ∧
    parseDocumentVersionCmd "zz" = -1 :=
  malformed_version_not_found "doc1" "zz" (by decide) (by decide) (by decide)

/-- C9: on the share endpoint, request-body validation precedes
authorization: for every caller (any claims, hence also an absent or
foreign token), a share request whose body fails to decode, names an
empty permission set, or names an invalid permission is answered with
status 400 (BadRequest), not with the existence-hiding 404. -/
theorem share_validation_precedes_auth (claims : Claims)
    (documentID : String) (body : Option (List Permission)) :
    (body = none → (PostDocumentShare claims documentID body).status = 400) ∧
    (body = some [] → (PostDocumentShare claims documentID body).status = 400) ∧
    (∀ perms p, body = some perms → p ∈ perms → p.IsValid = false →
      (PostDocumentShare claims documentID body).status = 400) := by
  refine ⟨?_, ?_, ?_⟩
  · rintro rfl; rfl
  · rintro rfl; rfl
  · rintro perms p rfl hp hval
    rcases hq : perms.find? (fun q => ! q.IsValid) with _ | q
    · rw [List.find?_eq_none] at hq
      have := hq p hp
      simp [hval] at this
    · by_cases hlen : perms.length == 0
      · simp [PostDocumentShare, hlen, ShareResult.status]
      · simp [PostDocumentShare, hlen, hq, ShareResult.status]

/-- C9 witness: with a foreign token, a malformed body, an empty
permission list and an unknown permission are each answered 400. -/
theorem share_validation_precedes_auth_witness :
    (PostDocumentShare ⟨"other", [PermissionShare], 0⟩ "doc1" none).status
        = 400 ∧
    (PostDocumentShare ⟨"other", [PermissionShare], 0⟩ "doc1"
        (some [])).status = 400 ∧
    (PostDocumentShare ⟨"other", [PermissionShare], 0⟩ "doc1"
        (some ["admin"])).status = 400 :=
  ⟨(share_validation_precedes_auth ⟨"other", [PermissionShare], 0⟩ "doc1"
      none).1 rfl,
   (share_validation_precedes_auth ⟨"other", [PermissionShare], 0⟩ "doc1"
      (some [])).2.1 rfl,
   (share_validation_precedes_auth ⟨"other", [PermissionShare], 0⟩ "doc1"
      (some ["admin"])).2.2 ["admin"] "admin" rfl (by decide) (by decide)⟩

/-- Shared bridge: the Go authorization gate condition of the mutating
handlers, `claims.Subject != documentID || !slices.Contains(claims.Permissions, p)`,
is false exactly when the claims target the document and hold `p`. -/
theorem authGate_false_iff (claims : Claims) (documentID : String)
    (p : Permission) :
    ((claims.subject != documentID) ||
        !(claims.permissions.contains p)) = false ↔
      claims.subject = documentID ∧ p ∈ claims.permissions := by
  simp

/-- The gate condition is true exactly when the claims miss the document
or the permission. -/
theorem authGate_true_iff (claims : Claims) (documentID : String)
    (p : Permission) :
    ((claims.subject != documentID) ||
        !(claims.permissions.contains p)) = true ↔
      ¬(claims.subject = documentID ∧ p ∈ claims.permissions) := by
  simp only [Bool.or_eq_true, bne_iff_ne, ne_eq, Bool.not_eq_true,
    not_and_or]
  simp

/-- C1: for each mutating handler (`PatchDocument` requiring `write`,
`DeleteDocument` requiring `delete`, `PostDocumentShare` requiring
`share`, the latter for a request whose body already passed validation),
the request is denied with the NotFound error — status 404, never the
403 Forbidden — unless the claims' subject is the document ID and the
required permission is among the claims' permissions; and when both hold
the handler proceeds to the post-authorization operation. -/
theorem mutating_handlers_auth_gate (claims : Claims)
    (documentID language content : String) (maxDocumentSize : Int)
    (store : Store) (now : Int) (perms : List Permission) :
    (¬(claims.subject = documentID ∧ PermissionWrite ∈ claims.permissions) →
      PatchDocument claims documentID language content maxDocumentSize
          store now = .notFound ∧
      (PatchDocument claims documentID language content maxDocumentSize
          store now).status = 404) ∧
    (claims.subject = documentID ∧ PermissionWrite ∈ claims.permissions →
      PatchDocument claims documentID language content maxDocumentSize
          store now =
        patchDocumentBody documentID language content maxDocumentSize
          store now) ∧
    (¬(claims.subject = documentID ∧ PermissionDelete ∈ claims.permissions) →
      DeleteDocumentRoutes claims documentID store = .notFound ∧
      (DeleteDocumentRoutes claims documentID store).status = 404) ∧
    (claims.subject = documentID ∧ PermissionDelete ∈ claims.permissions →
      DeleteDocumentRoutes claims documentID store =
        deleteDocumentBody documentID store) ∧
    (perms ≠ [] → (∀ p ∈ perms, p.IsValid = true) →
      (¬(claims.subject = documentID ∧
          PermissionShare ∈ claims.permissions) →
        PostDocumentShare claims documentID (some perms) = .notFound ∧
        (PostDocumentShare claims documentID (some perms)).status = 404) ∧
      (claims.subject = documentID ∧ PermissionShare ∈ claims.permissions →
        PostDocumentShare claims documentID (some perms) =
          shareDocumentBody claims documentID perms)) := by
  refine ⟨?_, ?_, ?_, ?_, ?_⟩
  · intro h
    have hb := (authGate_true_iff claims documentID PermissionWrite).mpr h
    have heq : PatchDocument claims documentID language content
        maxDocumentSize store now = .notFound := by
      simp only [PatchDocument]
      rw [hb]
      simp
    exact ⟨heq, by rw [heq]; rfl⟩
  · intro h
    have hb := (authGate_false_iff claims documentID PermissionWrite).mpr h
    simp only [PatchDocument, patchDocumentBody]
    rw [hb]
    simp
  · intro h
    have hb := (authGate_true_iff claims documentID PermissionDelete).mpr h
    have heq : DeleteDocumentRoutes claims documentID store
        = .notFound := by
      simp only [DeleteDocumentRoutes]
      rw [hb]
      simp
    exact ⟨heq, by rw [heq]; rfl⟩
  · intro h
    have hb := (authGate_false_iff claims documentID PermissionDelete).mpr h
    simp only [DeleteDocumentRoutes, deleteDocumentBody]
    rw [hb]
    simp
  · intro hne hval
    have hpos := List.length_pos_of_ne_nil hne
    have hlen : (perms.length == 0) = false := by
      simp only [beq_eq_false_iff_ne]
      omega
    have hfind : perms.find? (fun p => ! p.IsValid) = none := by
      rw [List.find?_eq_none]
      intro q hq
      simp [hval q hq]
    constructor
    · intro h
      have hb := (authGate_true_iff claims documentID PermissionShare).mpr h
      have heq : PostDocumentShare claims documentID (some perms)
          = .notFound := by
        simp only [PostDocumentShare]
        rw [hlen, hfind, hb]
        simp
      exact ⟨heq, by rw [heq]; rfl⟩
    · intro h
      have hb := (authGate_false_iff claims documentID PermissionShare).mpr h
      simp only [PostDocumentShare, shareDocumentBody]
      rw [hlen, hfind, hb]
      simp

/-- C1 witness: a token for another document is denied 404 on all three
handlers; a matching `write` token lets the update proceed. -/
theorem mutating_handlers_auth_gate_witness :
    (PatchDocument ⟨"other", [PermissionWrite], 0⟩ "doc1" "go" "hi" 0
        [] 1700000000 = .notFound ∧
      (PatchDocument ⟨"other", [PermissionWrite], 0⟩ "doc1" "go" "hi" 0
        [] 1700000000).status = 404) ∧
    (DeleteDocumentRoutes ⟨"other", [PermissionDelete], 0⟩ "doc1" []
        = .notFound ∧
      (DeleteDocumentRoutes ⟨"other", [PermissionDelete], 0⟩ "doc1"
        []).status = 404) ∧
    (PostDocumentShare ⟨"other", [PermissionShare], 0⟩ "doc1"
        (some [PermissionWrite]) = .notFound ∧
      (PostDocumentShare ⟨"other", [PermissionShare], 0⟩ "doc1"
        (some [PermissionWrite])).status = 404) ∧
    PatchDocument ⟨"doc1", [PermissionWrite], 0⟩ "doc1" "go" "hi" 0
        [] 1700000000 =
      patchDocumentBody "doc1" "go" "hi" 0 [] 1700000000 :=
  ⟨(mutating_handlers_auth_gate ⟨"other", [PermissionWrite], 0⟩ "doc1"
      "go" "hi" 0 [] 1700000000 []).1 (by decide),
   (mutating_handlers_auth_gate ⟨"other", [PermissionDelete], 0⟩ "doc1"
      "go" "hi" 0 [] 1700000000 []).2.2.1 (by decide),
   ((mutating_handlers_auth_gate ⟨"other", [PermissionShare], 0⟩ "doc1"
      "go" "hi" 0 [] 1700000000 [PermissionWrite]).2.2.2.2 (by decide)
      (by decide)).1 (by decide),
   (mutating_handlers_auth_gate ⟨"doc1", [PermissionWrite], 0⟩ "doc1"
      "go" "hi" 0 [] 1700000000 []).2.1 (by decide)⟩

/-- C2: on the share endpoint, once the caller's claims target the
document and hold `share` (and the body passed validation), the request
fails 403 Forbidden — not 404 — when the requested permission set is not
a subset of the claims' permissions, and a token for the document
carrying exactly the requested permissions is issued if and only if the
requested set is a subset. -/
theorem share_escalation_forbidden (claims : Claims) (documentID : String)
    (perms : List Permission) (hne : perms ≠ [])
    (hval : ∀ p ∈ perms, p.IsValid = true)
    (hsub : claims.subject = documentID)
    (hshare : PermissionShare ∈ claims.permissions) :
    (¬(∀ p ∈ perms, p ∈ claims.permissions) →
      ∃ q, q ∈ perms ∧ q ∉ claims.permissions ∧
        PostDocumentShare claims documentID (some perms) = .forbidden q ∧
        (PostDocumentShare claims documentID (some perms)).status = 403) ∧
    ((∀ p ∈ perms, p ∈ claims.permissions) →
      PostDocumentShare claims documentID (some perms) =
        .ok ⟨documentID, perms⟩) ∧
    ((∃ t, PostDocumentShare claims documentID (some perms) = .ok t ∧
        t.subject = documentID ∧ t.permissions = perms) ↔
      ∀ p ∈ perms, p ∈ claims.permissions) := by
  have hpos := List.length_pos_of_ne_nil hne
  have hlen : (perms.length == 0) = false := by
    simp only [beq_eq_false_iff_ne]
    omega
  have hfind : perms.find? (fun p => ! p.IsValid) = none := by
    rw [List.find?_eq_none]
    intro q hq
    simp [hval q hq]
  have hgate : ((claims.subject != documentID) ||
      !(claims.permissions.contains PermissionShare)) = false := by
    rw [authGate_false_iff]
    exact ⟨hsub, hshare⟩
  have hforb : ¬(∀ p ∈ perms, p ∈ claims.permissions) →
      ∃ q, q ∈ perms ∧ q ∉ claims.permissions ∧
        PostDocumentShare claims documentID (some perms) = .forbidden q ∧
        (PostDocumentShare claims documentID (some perms)).status
          = 403 := by
    intro h
    rcases hq : perms.find? (fun p => !(claims.permissions.contains p))
        with _ | q
    · exfalso
      rw [List.find?_eq_none] at hq
      refine h (fun p hp => ?_)
      have := hq p hp
      simpa using this
    · have hmem := List.find?_some hq
      have hqin := List.mem_of_find?_eq_some hq
      have heq : PostDocumentShare claims documentID (some perms)
          = .forbidden q := by
        simp only [PostDocumentShare]
        rw [hlen, hfind, hgate, hq]
        simp
      exact ⟨q, hqin, by simpa using hmem, heq, by rw [heq]; rfl⟩
  have hok : (∀ p ∈ perms, p ∈ claims.permissions) →
      PostDocumentShare claims documentID (some perms) =
        .ok ⟨documentID, perms⟩ := by
    intro h
    have hq : perms.find? (fun p => !(claims.permissions.contains p))
        = none := by
      rw [List.find?_eq_none]
      intro q hqin
      simp [h q hqin]
    simp only [PostDocumentShare]
    rw [hlen, hfind, hgate, hq]
    simp [NewToken]
  refine ⟨hforb, hok, ?_, ?_⟩
  · rintro ⟨t, ht, -, -⟩
    by_contra h
    rcases hforb h with ⟨q, -, -, heq, -⟩
    rw [ht] at heq
    exact ShareResult.noConfusion heq
  · intro h
    exact ⟨⟨documentID, perms⟩, hok h, rfl, rfl⟩

/-- C2 witness: with a `{write, share}` token for `doc1`, sharing
`{delete}` is 403 Forbidden and no token is issued; sharing `{write}`
issues a token for `doc1` with exactly `{write}`. -/
theorem share_escalation_forbidden_witness :
    (PostDocumentShare ⟨"doc1", [PermissionWrite, PermissionShare], 0⟩
        "doc1" (some [PermissionDelete])).status = 403 ∧
    PostDocumentShare ⟨"doc1", [PermissionWrite, PermissionShare], 0⟩
        "doc1" (some [PermissionWrite]) = .ok ⟨"doc1", [PermissionWrite]⟩ := by
  have h1 := (share_escalation_forbidden
      ⟨"doc1", [PermissionWrite, PermissionShare], 0⟩ "doc1"
      [PermissionDelete] (by decide) (by decide) (by decide)
      (by decide)).1 (by decide)
  have h2 := (share_escalation_forbidden
      ⟨"doc1", [PermissionWrite, PermissionShare], 0⟩ "doc1"
      [PermissionWrite] (by decide) (by decide) (by decide)
      (by decide)).2.1 (by decide)
  rcases h1 with ⟨q, -, -, -, hstat⟩
  exact ⟨hstat, h2⟩

/-- The latest row of a non-empty list exists. -/
theorem latestRow_ne_none (d : Document) (ds : List Document) :
    DB.latestRow (d :: ds) ≠ none := by
  rw [DB.latestRow]
  cases DB.latestRow ds with
  | none => simp
  | some m => by_cases hv : m.version ≥ d.version <;> simp [hv]

/-- Function `latestRow` yields `none` exactly on the empty list. -/
theorem latestRow_eq_none {l : List Document} :
    DB.latestRow l = none ↔ l = [] := by
  cases l with
  | nil => simp [DB.latestRow]
  | cons d ds => simp [latestRow_ne_none d ds]

/-- A latest row belongs to the list it was selected from. -/
theorem latestRow_mem {l : List Document} {m : Document}
    (h : DB.latestRow l = some m) : m ∈ l := by
  induction l generalizing m with
  | nil => simp [DB.latestRow] at h
  | cons d ds ih =>
    cases hds : DB.latestRow ds with
    | none =>
      simp only [DB.latestRow, hds] at h
      cases h
      exact List.mem_cons_self _ _
    | some m' =>
      simp only [DB.latestRow, hds] at h
      by_cases hv : m'.version ≥ d.version
      · rw [if_pos hv] at h
        cases h
        exact List.mem_cons_of_mem d (ih hds)
      · rw [if_neg hv] at h
        cases h
        exact List.mem_cons_self _ _

/-- A latest row has the maximal version of its list. -/
theorem latestRow_isMax {l : List Document} {m : Document}
    (h : DB.latestRow l = some m) : ∀ x ∈ l, x.version ≤ m.version := by
  induction l generalizing m with
  | nil => simp [DB.latestRow] at h
  | cons d ds ih =>
    cases hds : DB.latestRow ds with
    | none =>
      simp only [DB.latestRow, hds] at h
      cases h
      have hnil : ds = [] := latestRow_eq_none.mp hds
      subst hnil
      intro x hx
      rcases List.mem_cons.mp hx with rfl | hx'
      · exact le_refl _
      · simp at hx'
    | some m' =>
      simp only [DB.latestRow, hds] at h
      by_cases hv : m'.version ≥ d.version
      · rw [if_pos hv] at h
        cases h
        intro x hx
        rcases List.mem_cons.mp hx with rfl | hx'
        · exact hv
        · exact ih hds x hx'
      · rw [if_neg hv] at h
        cases h
        intro x hx
        rcases List.mem_cons.mp hx with rfl | hx'
        · exact le_refl _
        · exact le_trans (ih hds x hx') (le_of_not_ge hv)

/-- Filtering a list with a predicate the latest row satisfies does not
change the latest row. -/
theorem latestRow_filter {l : List Document} {m : Document}
    (p : Document → Bool) (h : DB.latestRow l = some m)
    (hp : p m = true) : DB.latestRow (l.filter p) = some m := by
  induction l generalizing m with
  | nil => simp [DB.latestRow] at h
  | cons d ds ih =>
    cases hds : DB.latestRow ds with
    | none =>
      simp only [DB.latestRow, hds] at h
      cases h
      have hnil : ds = [] := latestRow_eq_none.mp hds
      subst hnil
      simp [List.filter_cons, hp, DB.latestRow]
    | some m' =>
      simp only [DB.latestRow, hds] at h
      by_cases hv : m'.version ≥ d.version
      · rw [if_pos hv] at h
        cases h
        have hf := ih hds hp
        cases hpd : p d with
        | false => simpa [List.filter_cons, hpd] using hf
        | true =>
          rw [List.filter_cons_of_pos hpd, DB.latestRow, hf]
          show (if m.version ≥ d.version then some m else some d)
              = some m
          rw [if_pos hv]
      · rw [if_neg hv] at h
        cases h
        rw [List.filter_cons_of_pos hp, DB.latestRow]
        cases hf : DB.latestRow (ds.filter p) with
        | none => rfl
        | some m2 =>
          have hm2 : m2 ∈ ds :=
            List.mem_of_mem_filter (latestRow_mem hf)
          have hle : m2.version ≤ m'.version := latestRow_isMax hds _ hm2
          have hlt : ¬ m2.version ≥ d.version := by
            have := lt_of_not_ge hv
            omega
          show (if m2.version ≥ d.version then some m2 else some d)
              = some d
          rw [if_neg hlt]

/-- Under the per-version uniqueness invariant, removing an existing
composite key removes exactly one row. -/
theorem filter_not_key_length (store : Store) (id : String) (v : Int)
    (hnd : keysNodup store) (hk : DB.hasKey store id v = true) :
    (store.filter
        (fun d => !(d.id == id && d.version == v))).length + 1 =
      store.length := by
  induction store with
  | nil => simp [DB.hasKey] at hk
  | cons d ds ih =>
    rcases List.pairwise_cons.mp hnd with ⟨hR, htail⟩
    cases hd : (d.id == id && d.version == v) with
    | true =>
      have hdkey : d.id = id ∧ d.version = v := by simpa using hd
      have hall : ∀ x ∈ ds, (!(x.id == id && x.version == v)) = true := by
        intro x hx
        cases hxm : (x.id == id && x.version == v) with
        | false => simp
        | true =>
          exfalso
          have hx2 : x.id = id ∧ x.version = v := by simpa using hxm
          exact hR x hx
            ⟨hdkey.1.trans hx2.1.symm, hdkey.2.trans hx2.2.symm⟩
      have hfilter :
          List.filter (fun d => !(d.id == id && d.version == v)) ds
            = ds :=
        List.filter_eq_self.mpr hall
      have hpd : ¬ ((fun x : Document =>
          !(x.id == id && x.version == v)) d = true) := by
        show ¬ ((!(d.id == id && d.version == v)) = true)
        rw [hd]
        simp
      rw [@List.filter_cons_of_neg _
        (fun x => !(x.id == id && x.version == v)) d ds hpd, hfilter]
      simp
    | false =>
      have hds : DB.hasKey ds id v = true := by
        rw [DB.hasKey] at hk
        simp only [List.any_cons, Bool.or_eq_true] at hk
        rcases hk with h | h
        · rw [hd] at h
          exact absurd h (by simp)
        · exact h
      have := ih htail hds
      simp only [List.filter_cons, hd, Bool.not_false, if_true,
        List.length_cons]
      omega

/-- Restricting to one ID commutes with any row filter. -/
theorem rowsFor_filter_comm (store : Store) (id : String)
    (p : Document → Bool) :
    DB.rowsFor (store.filter p) id = (DB.rowsFor store id).filter p := by
  simp only [DB.rowsFor, List.filter_filter]
  exact List.filter_congr (fun a _ => by rw [Bool.and_comm])

/-- The key relation of `keysNodup` is symmetric. -/
theorem keyRel_symm :
    Symmetric (fun a b : Document =>
      ¬(a.id = b.id ∧ a.version = b.version)) := by
  intro x y h hxy
  exact h ⟨hxy.1.symm, hxy.2.symm⟩

/-- An absent composite key means no row of the store carries it. -/
theorem hasKey_false_forall {store : Store} {id : String} {v : Int}
    (h : DB.hasKey store id v = false) :
    ∀ a ∈ store, ¬(a.id = id ∧ a.version = v) := by
  rw [DB.hasKey, List.any_eq_false] at h
  intro a ha hak
  exact h a ha (by simp [hak.1, hak.2])

/-- C3: create and update only append — on success the new store is the
old one with exactly one new row at the end, so every existing row is
untouched (only the two delete operations remove rows); under the
composite-key invariant both operations preserve per-key uniqueness, and
distinct rows of one ID always carry distinct versions, so the versions
of an ID are strictly totally ordered by their timestamp value. -/
theorem store_append_only_and_unique (store : Store) (id : String)
    (now : Int) (content language : String) :
    (∀ st d, DB.CreateDocument store id now content language
        = .ok (st, d) →
      st = store ++ [d] ∧ d = ⟨id, now, content, language⟩) ∧
    (∀ st d, DB.UpdateDocument store id now content language
        = .ok (st, d) →
      st = store ++ [d] ∧ d = ⟨id, now, content, language⟩) ∧
    (keysNodup store →
      (∀ st d, DB.CreateDocument store id now content language
          = .ok (st, d) → keysNodup st) ∧
      (∀ st d, DB.UpdateDocument store id now content language
          = .ok (st, d) → keysNodup st) ∧
      (∀ a b, a ∈ DB.rowsFor store id → b ∈ DB.rowsFor store id →
        a ≠ b → a.version ≠ b.version)) := by
  have hcreate : ∀ st d, DB.CreateDocument store id now content language
      = .ok (st, d) →
      st = store ++ [d] ∧ d = ⟨id, now, content, language⟩ := by
    intro st d hok
    rw [DB.CreateDocument] at hok
    split at hok
    · exact absurd hok (by simp)
    · simp only [Except.ok.injEq, Prod.mk.injEq] at hok
      exact ⟨hok.1.symm.trans (by rw [hok.2]), hok.2.symm⟩
  have hupdate : ∀ st d, DB.UpdateDocument store id now content language
      = .ok (st, d) →
      st = store ++ [d] ∧ d = ⟨id, now, content, language⟩ := by
    intro st d hok
    rw [DB.UpdateDocument] at hok
    split at hok
    · exact absurd hok (by simp)
    · split at hok
      · exact absurd hok (by simp)
      · simp only [Except.ok.injEq, Prod.mk.injEq] at hok
        exact ⟨hok.1.symm.trans (by rw [hok.2]), hok.2.symm⟩
  have hkeyCreate : DB.CreateDocument store id now content language
      = .ok (store ++ [(⟨id, now, content, language⟩ : Document)],
        ⟨id, now, content, language⟩) →
      DB.hasKey store id now = false := by
    intro hok
    rw [DB.CreateDocument] at hok
    by_cases hk : DB.hasKey store id now
    · rw [if_pos hk] at hok
      exact absurd hok (by simp)
    · simpa using hk
  refine ⟨hcreate, hupdate, fun hnd => ⟨?_, ?_, ?_⟩⟩
  · intro st d hok
    obtain ⟨hst, hd⟩ := hcreate st d hok
    subst hd
    subst hst
    have hk : DB.hasKey store id now = false := by
      rw [DB.CreateDocument] at hok
      by_cases hk : DB.hasKey store id now
      · rw [if_pos hk] at hok
        exact absurd hok (by simp)
      · simpa using hk
    rw [keysNodup, List.pairwise_append]
    refine ⟨hnd, List.pairwise_singleton _ _, ?_⟩
    intro a ha b hb
    simp only [List.mem_singleton] at hb
    subst hb
    exact hasKey_false_forall hk a ha
  · intro st d hok
    obtain ⟨hst, hd⟩ := hupdate st d hok
    subst hd
    subst hst
    have hk : DB.hasKey store id now = false := by
      rw [DB.UpdateDocument] at hok
      split at hok
      · exact absurd hok (by simp)
      · by_cases hk : DB.hasKey store id now
        · rw [if_pos hk] at hok
          exact absurd hok (by simp)
        · simpa using hk
    rw [keysNodup, List.pairwise_append]
    refine ⟨hnd, List.pairwise_singleton _ _, ?_⟩
    intro a ha b hb
    simp only [List.mem_singleton] at hb
    subst hb
    exact hasKey_false_forall hk a ha
  · intro a b ha hb hab
    have hnd' : (DB.rowsFor store id).Pairwise
        (fun a b => ¬(a.id = b.id ∧ a.version = b.version)) :=
      List.Pairwise.sublist (List.filter_sublist store) hnd
    have hR := List.Pairwise.forall keyRel_symm hnd' ha hb hab
    have haid : a.id = id := by
      have := (List.mem_filter.mp ha).2
      simpa using this
    have hbid : b.id = id := by
      have := (List.mem_filter.mp hb).2
      simpa using this
    intro hv
    exact hR ⟨haid.trans hbid.symm, hv⟩

/-- C3 witness: a concrete successful create appends its row, and in a
concrete two-version store distinct rows of one ID carry distinct
versions. -/
theorem store_append_only_and_unique_witness :
    (([⟨"a", 5, "x", "go"⟩, ⟨"b", 7, "y", "txt"⟩] : Store)
        = [⟨"a", 5, "x", "go"⟩] ++ [⟨"b", 7, "y", "txt"⟩] ∧
      (⟨"b", 7, "y", "txt"⟩ : Document) = ⟨"b", 7, "y", "txt"⟩) ∧
    (⟨"a", 3, "x", "go"⟩ : Document).version ≠
      (⟨"a", 5, "y", "go"⟩ : Document).version :=
  ⟨(store_append_only_and_unique [⟨"a", 5, "x", "go"⟩] "b" 7 "y"
      "txt").1 [⟨"a", 5, "x", "go"⟩, ⟨"b", 7, "y", "txt"⟩]
      ⟨"b", 7, "y", "txt"⟩ (by rfl),
   ((store_append_only_and_unique
      [⟨"a", 3, "x", "go"⟩, ⟨"a", 5, "y", "go"⟩] "a" 9 "z" "t").2.2
      (by rw [keysNodup]; decide)).2.2 ⟨"a", 3, "x", "go"⟩
      ⟨"a", 5, "y", "go"⟩ (by decide) (by decide) (by decide)⟩

/-- C4: creating a document under a fresh ID succeeds, and `get_latest`
on that ID immediately afterwards returns a row whose content and
language are exactly the submitted ones. -/
theorem create_then_get_latest (store : Store) (id : String) (now : Int)
    (content language : String) (h : DB.rowsFor store id = []) :
    ∃ st d, DB.CreateDocument store id now content language
        = .ok (st, d) ∧
      DB.GetDocument st id = some d ∧
      d.content = content ∧ d.language = language := by
  have hk : DB.hasKey store id now = false := by
    rw [DB.hasKey, List.any_eq_false]
    intro x hx hpred
    have hxid : x.id = id := by
      simp only [Bool.and_eq_true, beq_iff_eq] at hpred
      exact hpred.1
    have hmem : x ∈ DB.rowsFor store id := by
      rw [DB.rowsFor, List.mem_filter]
      exact ⟨hx, by simp [hxid]⟩
    rw [h] at hmem
    simp at hmem
  refine ⟨store ++ [⟨id, now, content, language⟩],
    ⟨id, now, content, language⟩, ?_, ?_, rfl, rfl⟩
  · rw [DB.CreateDocument, if_neg (by simp [hk])]
  · rw [DB.GetDocument, DB.rowsFor, List.filter_append]
    have : List.filter (fun d => d.id == id) store = [] := by
      rw [← DB.rowsFor]
      exact h
    rw [this]
    simp [DB.latestRow]

/-- C4 witness: a concrete fresh create round-trips through
`get_latest`. -/
theorem create_then_get_latest_witness :
    ∃ st d, DB.CreateDocument [⟨"a", 5, "x", "go"⟩] "b" 7 "hello" "txt"
        = .ok (st, d) ∧
      DB.GetDocument st "b" = some d ∧
      d.content = "hello" ∧ d.language = "txt" :=
  create_then_get_latest [⟨"a", 5, "x", "go"⟩] "b" 7 "hello" "txt"
    (by decide)

/-- C7: a successful `delete_version(id, v)` removes exactly the one row
with composite key `(id, v)` — every other row, of this ID or any other,
survives unchanged, every surviving row came from the old store, the
targeted key is gone, under the uniqueness invariant precisely one row is
removed — and when the deleted version is not the latest one,
`get_latest(id)` is unchanged. -/
theorem delete_version_frame (store : Store) (id : String) (v : Int)
    (st : Store) (hnd : keysNodup store)
    (hok : DB.DeleteDocumentByVersion store id v = .ok st) :
    (∀ d ∈ store, ¬(d.id = id ∧ d.version = v) → d ∈ st) ∧
    (∀ d ∈ st, d ∈ store) ∧
    (∀ d ∈ st, ¬(d.id = id ∧ d.version = v)) ∧
    st.length + 1 = store.length ∧
    (∀ m, DB.GetDocument store id = some m → m.version ≠ v →
      DB.GetDocument st id = some m) := by
  have hkey : DB.hasKey store id v = true := by
    rw [DB.DeleteDocumentByVersion] at hok
    by_cases hk : DB.hasKey store id v
    · exact hk
    · rw [if_neg hk] at hok
      exact absurd hok (by simp)
  have hst : st = store.filter
      (fun d => !(d.id == id && d.version == v)) := by
    rw [DB.DeleteDocumentByVersion, if_pos hkey] at hok
    simpa using hok.symm
  subst hst
  refine ⟨?_, ?_, ?_, ?_, ?_⟩
  · intro d hd hkd
    rw [List.mem_filter]
    refine ⟨hd, ?_⟩
    cases hm : (d.id == id && d.version == v) with
    | false => simp
    | true =>
      exfalso
      exact hkd (by simpa using hm)
  · intro d hd
    exact List.mem_of_mem_filter hd
  · intro d hd hkd
    have := (List.mem_filter.mp hd).2
    simp only [Bool.not_eq_true', Bool.and_eq_false_iff] at this
    rcases this with h | h <;>
      simp only [beq_eq_false_iff_ne, ne_eq] at h
    · exact h hkd.1
    · exact h hkd.2
  · exact filter_not_key_length store id v hnd hkey
  · intro m hm hv
    rw [DB.GetDocument] at hm ⊢
    rw [rowsFor_filter_comm]
    have hmmem : m ∈ DB.rowsFor store id := latestRow_mem hm
    have hmid : m.id = id := by
      have := (List.mem_filter.mp hmmem).2
      simpa using this
    refine latestRow_filter _ hm ?_
    have : (m.version == v) = false := by
      simp [hv]
    simp [this]

/-- C7 witness: deleting the old version of a two-version document keeps
the other document and the latest version intact. -/
theorem delete_version_frame_witness :
    ((⟨"a", 5, "x", "go"⟩ : Document)
        ∈ ([⟨"a", 5, "x", "go"⟩, ⟨"b", 9, "z", "c"⟩] : Store)) ∧
    DB.GetDocument [⟨"a", 5, "x", "go"⟩, ⟨"b", 9, "z", "c"⟩] "b"
        = some ⟨"b", 9, "z", "c"⟩ := by
  have hok : DB.DeleteDocumentByVersion
      [⟨"b", 3, "y", "c"⟩, ⟨"a", 5, "x", "go"⟩, ⟨"b", 9, "z", "c"⟩]
      "b" 3 = .ok [⟨"a", 5, "x", "go"⟩, ⟨"b", 9, "z", "c"⟩] := by
    rfl
  have hnd : keysNodup
      [⟨"b", 3, "y", "c"⟩, ⟨"a", 5, "x", "go"⟩, ⟨"b", 9, "z", "c"⟩] := by
    rw [keysNodup]
    decide
  have hfr := delete_version_frame
    [⟨"b", 3, "y", "c"⟩, ⟨"a", 5, "x", "go"⟩, ⟨"b", 9, "z", "c"⟩]
    "b" 3 [⟨"a", 5, "x", "go"⟩, ⟨"b", 9, "z", "c"⟩] hnd hok
  refine ⟨hfr.1 ⟨"a", 5, "x", "go"⟩ (by decide) (by decide), ?_⟩
  exact hfr.2.2.2.2 ⟨"b", 9, "z", "c"⟩ (by decide) (by decide)

/-- C5: at the request-parsing boundary an absent version segment (and
the literal `0`) is the sentinel `0`; a read handler given the sentinel
returns the latest row (not a `(id, 0)` lookup), the delete handler given
the sentinel removes every version row of the ID (delete-all), and the
Version Clock never emits `0` (its output is the current Unix time, which
is positive). -/
theorem version_zero_sentinel :
    (parseDocumentVersionCmd "" = 0 ∧ parseDocumentVersionCmd "0" = 0) ∧
    (∀ (id : String) (store : Store) (d : Document) (vs : String),
      id ≠ "" → parseDocumentVersionCmd vs = 0 →
      DB.GetDocument store id = some d →
      getDocumentCmd id vs store = .found d) ∧
    (∀ (claims : Claims) (id : String) (store : Store) (vs : String),
      parseDocumentVersionCmd vs = 0 →
      claims.subject = id → PermissionDelete ∈ claims.permissions →
      DB.rowsFor store id ≠ [] →
      ∃ st, DeleteDocumentCmd claims id vs store = .deleted 0 st ∧
        DB.rowsFor st id = []) ∧
    (∀ now : Int, 0 < now → nextVersion now ≠ 0) := by
  refine ⟨⟨rfl, rfl⟩, ?_, ?_, ?_⟩
  · intro id store d vs hid hparse hdoc
    have hid' : (id == "") = false := by simp [hid]
    simp only [getDocumentCmd, hid', Bool.false_eq_true, if_false,
      hparse]
    norm_num
    rw [hdoc]
  · intro claims id store vs hparse hsub hdel hrows
    have hgate := (authGate_false_iff claims id PermissionDelete).mpr
      ⟨hsub, hdel⟩
    have hdel2 : DB.DeleteDocument store id
        = .ok (store.filter (fun d => !(d.id == id))) := by
      rw [DB.DeleteDocument, if_neg hrows]
    have hempty : DB.rowsFor (store.filter (fun d => !(d.id == id))) id
        = [] := by
      rw [rowsFor_filter_comm, List.filter_eq_nil_iff]
      intro x hx
      have hxid := (List.mem_filter.mp hx).2
      simp [hxid]
    refine ⟨store.filter (fun d => !(d.id == id)), ?_, hempty⟩
    simp only [DeleteDocumentCmd, hparse]
    rw [hgate]
    simp only [Bool.false_eq_true, if_false]
    norm_num
    rw [hdel2]
    simp [DB.GetVersionCount, hempty]
  · intro now hnow
    simp only [nextVersion]
    omega

/-- C5 witness: with a matching delete token and a two-row store, the
sentinel request deletes all rows of the ID, the sentinel read returns
the latest row, and the clock value `1700000000` is nonzero. -/
theorem version_zero_sentinel_witness :
    getDocumentCmd "a" "" [⟨"a", 5, "x", "go"⟩, ⟨"a", 9, "y", "go"⟩]
        = .found ⟨"a", 9, "y", "go"⟩ ∧
    (∃ st, DeleteDocumentCmd ⟨"a", [PermissionDelete], 0⟩ "a" ""
        [⟨"a", 5, "x", "go"⟩, ⟨"a", 9, "y", "go"⟩] = .deleted 0 st ∧
      DB.rowsFor st "a" = []) ∧
    nextVersion 1700000000 ≠ 0 := by
  have h := version_zero_sentinel
  refine ⟨?_, ?_, ?_⟩
  · exact h.2.1 "a" [⟨"a", 5, "x", "go"⟩, ⟨"a", 9, "y", "go"⟩]
      ⟨"a", 9, "y", "go"⟩ "" (by decide) rfl (by rfl)
  · exact h.2.2.1 ⟨"a", [PermissionDelete], 0⟩ "a"
      [⟨"a", 5, "x", "go"⟩, ⟨"a", 9, "y", "go"⟩] "" rfl rfl
      (by decide) (by decide)
  · exact h.2.2.2 1700000000 (by norm_num)

/-- C10: the version label is determined by the first calendar component
— checked in the order year, month, day, hour, minute — where the
version's component is strictly less than `now`'s, and displays exactly
that single component difference, falling through to the second
difference; it is not a function of the elapsed duration: two pairs one
second apart produce "1 years ago" and "1 seconds ago" respectively. -/
theorem format_version_first_component :
    (∀ (now : DateTime) (v : Int),
      (FormatDocumentVersion now v).1 = specLabel now (civilFromUnix v)) ∧
    ((1672531200 : Int) - 1672531199 = 101 - 100 ∧
      (FormatDocumentVersion (civilFromUnix 1672531200) 1672531199).1
          = "1 years ago" ∧
      (FormatDocumentVersion (civilFromUnix 101) 100).1
          = "1 seconds ago" ∧
      (FormatDocumentVersion (civilFromUnix 1672531200) 1672531199).1 ≠
        (FormatDocumentVersion (civilFromUnix 101) 100).1) := by
  constructor
  · intro now v
    by_cases h1 : (civilFromUnix v).year < now.year
    · simp [FormatDocumentVersion, specLabel, componentSteps, h1]
    · by_cases h2 : (civilFromUnix v).month < now.month
      · simp [FormatDocumentVersion, specLabel, componentSteps, h1, h2]
      · by_cases h3 : (civilFromUnix v).day < now.day
        · simp [FormatDocumentVersion, specLabel, componentSteps,
            h1, h2, h3]
        · by_cases h4 : (civilFromUnix v).hour < now.hour
          · simp [FormatDocumentVersion, specLabel, componentSteps,
              h1, h2, h3, h4]
          · by_cases h5 : (civilFromUnix v).minute < now.minute
            · simp [FormatDocumentVersion, specLabel, componentSteps,
                h1, h2, h3, h4, h5]
            · simp [FormatDocumentVersion, specLabel, componentSteps,
                h1, h2, h3, h4, h5]
  · refine ⟨by norm_num, ?_, ?_, ?_⟩ <;> decide

end Gobin
